import Mathlib

/-!
Verification development for the jobhunter-ai LLM orchestration layer
(`src/services/gemini.ts`).

The TypeScript source is shallowly embedded: pure functions become Lean
functions; asynchronous functions that perform network calls become Lean
functions taking the outcome of the network interaction as an explicit
`Except`-valued parameter (the `Except.error` channel models a thrown JS
exception / rejected promise); the JavaScript builtin `JSON.parse` is
abstracted as an explicit `String → Option _` parameter (`none` models a
`SyntaxError` throw).  JavaScript string falsiness (`s || d`) is modelled
by testing for the empty string, and `undefined` by `Option`.
-/

namespace JobHunter

/-! ### Data model (`src/types.ts`) -/

inductive LLMProvider where
  | google
  | openai
  | anthropic
  | groq
  | deepseek
  | openrouter
  | custom
deriving DecidableEq, Repr

inductive TaskType where
  | parsing
  | tailoring
  | matching
  | search
deriving DecidableEq, Repr

structure LLMConfig where
  provider : LLMProvider
  apiKey : String
  modelName : String
  baseUrl : Option String
  siteUrl : Option String
  siteName : Option String
  supportsVision : Bool
  supportsSearch : Bool
deriving DecidableEq, Repr

/-- `LLMSettings extends LLMConfig` with a per-task override map.  A TS
`Partial<Record<TaskType, LLMConfig>>` is a total function into `Option`. -/
structure LLMSettings extends LLMConfig where
  overrides : TaskType → Option LLMConfig

structure Resume where
  id : String
  name : String
  content : String
deriving DecidableEq, Repr

structure Job where
  id : String
  title : String
  company : String
  location : String
  summary : String
  url : Option String
  postedAt : Option String
  source : Option String
deriving DecidableEq, Repr

structure JobAnalysis where
  jobId : String
  bestResumeId : String
  matchScore : Int
  reasoning : String
  missingKeywords : List String
deriving DecidableEq, Repr

/-! ### Configuration resolver (`getTaskSettings`, gemini.ts lines 31-37)

The stored `LLMSettings` record (what `getLLMSettings()` yields from
localStorage) is passed explicitly.  `task` being optional in TS is an
`Option TaskType` here. -/

def getTaskSettings (settings : LLMSettings) (task : Option TaskType) : LLMConfig :=
  match task with
  | some t =>
    match settings.overrides t with
    | some cfg => cfg
    | none => settings.toLLMConfig
  | none => settings.toLLMConfig

/-! ### Pure string helpers -/

/-- Boolean substring test, modelling JS `String.prototype.includes`. -/
def containsSub (pat : List Char) : List Char → Bool
  | [] => pat.isEmpty
  | c :: rest => pat.isPrefixOf (c :: rest) || containsSub pat rest

/-- Substring test on `String`s. -/
def strContains (pat s : String) : Bool := containsSub pat.data s.data

/-! ### generateJobDork (gemini.ts lines 396-400) -/

def generateJobDork (jobTitle : String) (company : String) : String :=
  let domains := ["linkedin.com/jobs", "indeed.com/viewjob", "greenhouse.io",
                  "lever.co", "workday.com", "ashbyhq.com"]
  let siteQuery := "(" ++ String.intercalate " OR " (domains.map (fun d => "site:" ++ d)) ++ ")"
  siteQuery ++ " \"" ++ jobTitle ++ "\" \"" ++ company ++ "\""

/-! ### Claim theorems: C1, C2 -/

/-- C1: `generateJobDork` is a pure, deterministic function (repeated
applications at equal inputs are definitionally the same string), and for
title "Backend Engineer", company "Acme" the output contains the six fixed
job-board domains OR-joined (with `site:linkedin.com/jobs` first) and
contains both the title and the company wrapped in double quotes exactly. -/
theorem generateJobDork_deterministic_and_shape :
    (∀ t c : String, generateJobDork t c = generateJobDork t c)
    ∧ generateJobDork "Backend Engineer" "Acme" =
        "(site:linkedin.com/jobs OR site:indeed.com/viewjob OR site:greenhouse.io OR site:lever.co OR site:workday.com OR site:ashbyhq.com) \"Backend Engineer\" \"Acme\""
    ∧ strContains "site:linkedin.com/jobs OR site:indeed.com/viewjob OR site:greenhouse.io OR site:lever.co OR site:workday.com OR site:ashbyhq.com"
        (generateJobDork "Backend Engineer" "Acme") = true
    ∧ strContains "\"Backend Engineer\"" (generateJobDork "Backend Engineer" "Acme") = true
    ∧ strContains "\"Acme\"" (generateJobDork "Backend Engineer" "Acme") = true := by
  refine ⟨fun t c => rfl, by decide, by decide, by decide, by decide⟩

/-- C2: task-specific resolution.  When the stored settings bind no override
for `task`, `getTaskSettings settings (some task)` equals the global
resolution `getTaskSettings settings none`; when they bind `task` to a
snapshot `X`, the task resolution is exactly `X`, whatever the global-level
fields hold. -/
theorem getTaskSettings_override_semantics :
    ∀ (settings : LLMSettings) (task : TaskType),
      (settings.overrides task = none →
        getTaskSettings settings (some task) = getTaskSettings settings none)
      ∧ (∀ X : LLMConfig, settings.overrides task = some X →
        getTaskSettings settings (some task) = X) := by
  intro settings task
  constructor
  · intro h
    simp [getTaskSettings, h]
  · intro X h
    simp [getTaskSettings, h]

def sampleConfigA : LLMConfig :=
  { provider := LLMProvider.google, apiKey := "", modelName := "gemini-2.0-flash-exp",
    baseUrl := none, siteUrl := none, siteName := none,
    supportsVision := true, supportsSearch := true }

def sampleConfigB : LLMConfig :=
  { provider := LLMProvider.openai, apiKey := "sk-x", modelName := "gpt-4o",
    baseUrl := none, siteUrl := none, siteName := none,
    supportsVision := true, supportsSearch := false }

def sampleSettingsNoOverride : LLMSettings :=
  { toLLMConfig := sampleConfigA, overrides := fun _ => none }

def sampleSettingsMatchingOverride : LLMSettings :=
  { toLLMConfig := sampleConfigA,
    overrides := fun t => if t = TaskType.matching then some sampleConfigB else none }

/-- Witness for C2 at concrete stored settings: inheriting resolution with an
empty override map, and verbatim override resolution for `matching`. -/
theorem getTaskSettings_override_semantics_witness :
    getTaskSettings sampleSettingsNoOverride (some TaskType.matching) =
      getTaskSettings sampleSettingsNoOverride none
    ∧ getTaskSettings sampleSettingsMatchingOverride (some TaskType.matching) = sampleConfigB :=
  ⟨(getTaskSettings_override_semantics sampleSettingsNoOverride TaskType.matching).1 rfl,
   (getTaskSettings_override_semantics sampleSettingsMatchingOverride TaskType.matching).2
      sampleConfigB rfl⟩

/-! ### cleanJson (gemini.ts lines 153-155)

`cleanJson` is `text.replace(/```json/g, '').replace(/```/g, '').trim()`.
A global regex replace over a literal pattern with empty replacement scans
left to right, removing non-overlapping occurrences and resuming right
after each removed occurrence; `removeAll` below implements exactly that.
It is written with an explicit fuel argument (initialised to the input
length, which always suffices) so that it is structurally recursive and
reduces inside `decide`/`rfl`. -/

def removeAllF (pat : List Char) : Nat → List Char → List Char
  | 0, s => s
  | _ + 1, [] => []
  | fuel + 1, c :: rest =>
    if pat ≠ [] ∧ pat <+: (c :: rest) then
      removeAllF pat fuel (rest.drop (pat.length - 1))
    else
      c :: removeAllF pat fuel rest

def removeAll (pat s : List Char) : List Char := removeAllF pat s.length s

def wsChar (c : Char) : Bool := c.isWhitespace

/-- Trim at both ends, modelling JS `String.prototype.trim` on the
whitespace characters that occur in this code base. -/
def trimList (s : List Char) : List Char :=
  (((s.dropWhile wsChar).reverse.dropWhile wsChar).reverse)

def tickJson : List Char := "```json".data

def tick3 : List Char := "```".data

def cleanJson (text : String) : String :=
  ⟨trimList (removeAll tick3 (removeAll tickJson text.data))⟩

/-! Unfolding equations for `removeAll` that hide the fuel argument. -/

theorem removeAllF_fuel_irrel (pat : List Char) :
    ∀ (f₁ f₂ : Nat) (s : List Char), s.length ≤ f₁ → s.length ≤ f₂ →
      removeAllF pat f₁ s = removeAllF pat f₂ s := by
  intro f₁
  induction f₁ with
  | zero =>
    intro f₂ s h₁ _
    have : s = [] := List.length_eq_zero.mp (Nat.le_zero.mp h₁)
    subst this
    cases f₂ <;> rfl
  | succ f ih =>
    intro f₂ s h₁ h₂
    cases s with
    | nil => cases f₂ <;> rfl
    | cons c rest =>
      cases f₂ with
      | zero => exact absurd h₂ (by simp)
      | succ f₂' =>
        simp only [List.length_cons] at h₁ h₂
        have hd : (rest.drop (pat.length - 1)).length ≤ f := by
          rw [List.length_drop]; omega
        have hd₂ : (rest.drop (pat.length - 1)).length ≤ f₂' := by
          rw [List.length_drop]; omega
        by_cases hc : pat ≠ [] ∧ pat <+: (c :: rest)
        · simp only [removeAllF, if_pos hc]
          exact ih f₂' _ hd hd₂
        · simp only [removeAllF, if_neg hc]
          exact congrArg (c :: ·) (ih f₂' rest (by omega) (by omega))

theorem removeAll_nil (pat : List Char) : removeAll pat [] = [] := rfl

theorem removeAll_cons_pos (pat : List Char) (c : Char) (rest : List Char)
    (h : pat ≠ [] ∧ pat <+: (c :: rest)) :
    removeAll pat (c :: rest) = removeAll pat (rest.drop (pat.length - 1)) := by
  unfold removeAll
  have h1 : removeAllF pat (rest.length + 1) (c :: rest) =
      removeAllF pat rest.length (rest.drop (pat.length - 1)) := by
    simp only [removeAllF, if_pos h]
  calc removeAllF pat (c :: rest).length (c :: rest)
      = removeAllF pat rest.length (rest.drop (pat.length - 1)) := by
        simp only [List.length_cons]
        exact h1
    _ = removeAllF pat (rest.drop (pat.length - 1)).length (rest.drop (pat.length - 1)) := by
        refine removeAllF_fuel_irrel pat _ _ _ ?_ le_rfl
        rw [List.length_drop]
        exact Nat.sub_le rest.length (pat.length - 1)

theorem removeAll_cons_neg (pat : List Char) (c : Char) (rest : List Char)
    (h : ¬ (pat ≠ [] ∧ pat <+: (c :: rest))) :
    removeAll pat (c :: rest) = c :: removeAll pat rest := by
  unfold removeAll
  have h1 : removeAllF pat (rest.length + 1) (c :: rest) =
      c :: removeAllF pat rest.length rest := by
    simp only [removeAllF, if_neg h]
  simpa using h1

/-- A pattern that occurs nowhere is not removed. -/
theorem removeAll_of_no_occurrence (pat : List Char) :
    ∀ s : List Char, ¬ pat <:+: s → removeAll pat s = s := by
  intro s
  induction s with
  | nil => intro _; rfl
  | cons c rest ih =>
    intro h
    have hnc : ¬ (pat ≠ [] ∧ pat <+: (c :: rest)) := by
      rintro ⟨-, hpre⟩
      exact h hpre.isInfix
    rw [removeAll_cons_neg pat c rest hnc]
    have : ¬ pat <:+: rest := fun hr => h (List.infix_cons hr)
    rw [ih this]

/-- Removing the pattern from a string that starts with it skips that
leading occurrence. -/
theorem removeAll_self_append (pat rest : List Char) (hne : pat ≠ []) :
    removeAll pat (pat ++ rest) = removeAll pat rest := by
  cases pat with
  | nil => exact absurd rfl hne
  | cons p pt =>
    have hpre : (p :: pt) <+: (p :: pt) ++ rest := List.prefix_append _ _
    have := removeAll_cons_pos (p :: pt) p (pt ++ rest) ⟨hne, by simp only [List.cons_append] at hpre; exact hpre⟩
    simpa [List.drop_left] using this

/-- Removing the pattern from `xs ++ pat` when no occurrence starts inside
`xs` (i.e. the pattern is not an infix of `xs` extended by all but the last
character of the pattern) yields `xs`. -/
theorem removeAll_append_pat (pat : List Char) (hne : pat ≠ []) :
    ∀ xs : List Char, ¬ pat <:+: (xs ++ pat.dropLast) → removeAll pat (xs ++ pat) = xs := by
  intro xs
  induction xs with
  | nil =>
    intro _
    simpa [removeAll_nil] using removeAll_self_append pat [] hne
  | cons c xs' ih =>
    intro h
    have hL : 1 ≤ pat.length := List.length_pos.mpr hne
    have hnc : ¬ (pat ≠ [] ∧ pat <+: (c :: xs' ++ pat)) := by
      rintro ⟨-, hpre⟩
      apply h
      have htake : pat <+:
          List.take ((c :: xs').length + (pat.length - 1)) ((c :: xs') ++ pat) := by
        refine List.prefix_take_iff.mpr ⟨by simpa using hpre, ?_⟩
        simp only [List.length_cons]
        omega
      have heq : List.take ((c :: xs').length + (pat.length - 1)) ((c :: xs') ++ pat)
          = (c :: xs') ++ pat.dropLast := by
        rw [List.take_append_eq_append_take]
        congr 1
        · exact List.take_of_length_le (by omega)
        · rw [List.dropLast_eq_take]
          congr 1
          omega
      rw [heq] at htake
      simpa using htake.isInfix
    rw [show (c :: xs') ++ pat = c :: (xs' ++ pat) by simp,
        removeAll_cons_neg pat c (xs' ++ pat) hnc]
    have h' : ¬ pat <:+: (xs' ++ pat.dropLast) := by
      intro hx
      exact h (List.infix_cons hx)
    rw [ih h']

/-- A prefix of `xs ++ c :: ys` avoiding the character `c` is already a
prefix of `xs`. -/
theorem prefix_through_sep {pat : List Char} {c : Char} :
    ∀ {xs ys : List Char}, c ∉ pat → pat <+: xs ++ c :: ys → pat <+: xs := by
  induction pat with
  | nil => intro xs ys _ _; exact List.nil_prefix
  | cons p pt ih =>
    intro xs ys hc h
    cases xs with
    | nil =>
      rw [List.nil_append, List.cons_prefix_cons] at h
      exact absurd (by rw [← h.1]; exact List.mem_cons_self p pt) hc
    | cons a xs' =>
      rw [List.cons_append, List.cons_prefix_cons] at h
      have hc' : c ∉ pt := fun hm => hc (List.mem_cons_of_mem p hm)
      exact List.cons_prefix_cons.mpr ⟨h.1, ih hc' h.2⟩

/-- A pattern avoiding the character `c` that occurs neither in `xs` nor in
`ys` does not occur in `xs ++ c :: ys` either. -/
theorem noOcc_append_cons {pat : List Char} {c : Char} :
    ∀ {xs ys : List Char}, c ∉ pat → ¬ pat <:+: xs → ¬ pat <:+: ys →
      ¬ pat <:+: (xs ++ c :: ys) := by
  intro xs
  induction xs with
  | nil =>
    intro ys hc hx hy h
    rw [List.nil_append, List.infix_cons_iff] at h
    rcases h with hpre | hinf
    · cases pat with
      | nil => exact hx List.nil_infix
      | cons p pt =>
        rw [List.cons_prefix_cons] at hpre
        exact hc (by rw [← hpre.1]; exact List.mem_cons_self p pt)
    · exact hy hinf
  | cons a xs' ih =>
    intro ys hc hx hy h
    rw [List.cons_append, List.infix_cons_iff] at h
    rcases h with hpre | hinf
    · have hpx : pat <+: a :: xs' :=
        prefix_through_sep hc (by rw [List.cons_append]; exact hpre)
    -- `hpre : pat <+: a :: (xs' ++ c :: ys)` is the same prefix statement
      exact hx hpx.isInfix
    · exact ih hc (fun hh => hx (List.infix_cons hh)) hy hinf

/-! Trim lemmas. -/

theorem trimList_cons_ws {c : Char} (hc : wsChar c = true) (t : List Char) :
    trimList (c :: t) = trimList t := by
  simp [trimList, List.dropWhile_cons, hc]

theorem trimList_concat_ws {c : Char} (hc : wsChar c = true) (t : List Char) :
    trimList (t ++ [c]) = trimList t := by
  unfold trimList
  rw [List.dropWhile_append]
  by_cases h : (t.dropWhile wsChar).isEmpty
  · rw [if_pos h]
    have h' : t.dropWhile wsChar = [] := by simpa using h
    simp [List.dropWhile_cons, hc, h']
  · rw [if_neg h]
    simp [List.reverse_append, List.dropWhile_cons, hc]

theorem trimList_eq_self :
    ∀ (l : List Char) (a b : Char), l.head? = some a → l.getLast? = some b →
      wsChar a = false → wsChar b = false → trimList l = l := by
  intro l a b ha hb hwa hwb
  cases l with
  | nil => simp at ha
  | cons x t =>
    have hx : x = a := by simpa using ha
    subst hx
    unfold trimList
    rw [List.dropWhile_cons, if_neg (by simp [hwa])]
    have hne : (x :: t).reverse ≠ [] := by simp
    obtain ⟨y, r, hr⟩ := List.exists_cons_of_ne_nil hne
    have hy : y = b := by
      have hrev := List.head?_reverse (x :: t)
      rw [hr, List.head?_cons, hb] at hrev
      exact Option.some.inj hrev
    rw [hr, List.dropWhile_cons, if_neg (by simp [hy, hwb]), ← hr, List.reverse_reverse]

/-! ### JSON values and their serialization

A model of the JSON data handled by `JSON.parse`/`JSON.stringify`:
`serializeJson` follows `JSON.stringify` (string escaping as in the JSON
grammar; backticks are NOT escaped, which is what makes `cleanJson`
lossy on serializations containing three consecutive backticks). -/

inductive Json where
  | null
  | bool (b : Bool)
  | num (n : Int)
  | str (s : List Char)
  | arr (xs : List Json)
  | obj (fields : List (String × Json))

def lbrace : Char := Char.ofNat 123

def rbrace : Char := Char.ofNat 125

def digitChar (n : Nat) : Char := Char.ofNat (48 + n)

def hexDigit (n : Nat) : Char :=
  if n < 10 then Char.ofNat (48 + n) else Char.ofNat (87 + n)

def natDigitsF : Nat → Nat → List Char
  | 0, _ => []
  | fuel + 1, n =>
    if n < 10 then [digitChar n]
    else natDigitsF fuel (n / 10) ++ [digitChar (n % 10)]

def natDigits (n : Nat) : List Char := natDigitsF (n + 1) n

def serializeInt (n : Int) : List Char :=
  if n < 0 then '-' :: natDigits n.natAbs else natDigits n.toNat

def escapeChar (c : Char) : List Char :=
  if c = '"' then ['\\', '"']
  else if c = '\\' then ['\\', '\\']
  else if c = '\n' then ['\\', 'n']
  else if c = '\r' then ['\\', 'r']
  else if c = '\t' then ['\\', 't']
  else if c.toNat = 8 then ['\\', 'b']
  else if c.toNat = 12 then ['\\', 'f']
  else if c.toNat < 32 then
    ['\\', 'u', '0', '0', hexDigit (c.toNat / 16), hexDigit (c.toNat % 16)]
  else [c]

def escape (s : List Char) : List Char := s.foldr (fun c acc => escapeChar c ++ acc) []

mutual

def serializeJson : Json → List Char
  | Json.null => "null".data
  | Json.bool true => "true".data
  | Json.bool false => "false".data
  | Json.num n => serializeInt n
  | Json.str s => '"' :: (escape s ++ ['"'])
  | Json.arr xs => '[' :: (serializeArr xs ++ [']'])
  | Json.obj fs => lbrace :: (serializeObj fs ++ [rbrace])

def serializeArr : List Json → List Char
  | [] => []
  | [x] => serializeJson x
  | x :: y :: rest => serializeJson x ++ ',' :: serializeArr (y :: rest)

def serializeObj : List (String × Json) → List Char
  | [] => []
  | [(k, v)] => '"' :: (escape k.data ++ ('"' :: ':' :: serializeJson v))
  | (k, v) :: e :: rest =>
    ('"' :: (escape k.data ++ ('"' :: ':' :: serializeJson v))) ++ ',' :: serializeObj (e :: rest)

end

def serialize (v : Json) : String := ⟨serializeJson v⟩

/-! Serializations start and end with non-whitespace characters. -/

theorem digitChar_not_ws : ∀ k, k < 10 → wsChar (digitChar k) = false := by decide

theorem natDigitsF_all_digits :
    ∀ (fuel n : Nat) (c : Char), c ∈ natDigitsF fuel n → ∃ k, k < 10 ∧ c = digitChar k := by
  intro fuel
  induction fuel with
  | zero => intro n c h; simp [natDigitsF] at h
  | succ f ih =>
    intro n c h
    by_cases hn : n < 10
    · simp [natDigitsF, hn] at h
      exact ⟨n, hn, h⟩
    · simp only [natDigitsF, if_neg hn, List.mem_append, List.mem_singleton] at h
      rcases h with h | h
      · exact ih _ _ h
      · exact ⟨n % 10, Nat.mod_lt _ (by norm_num), h⟩

theorem natDigitsF_ne_nil (fuel n : Nat) (h : 0 < fuel) : natDigitsF fuel n ≠ [] := by
  cases fuel with
  | zero => omega
  | succ f => by_cases hn : n < 10 <;> simp [natDigitsF, hn]

theorem head?_mem_self {α : Type} {l : List α} {a : α} (h : l.head? = some a) : a ∈ l := by
  cases l with
  | nil => simp at h
  | cons x t =>
    rw [List.head?_cons] at h
    exact (Option.some.inj h) ▸ List.mem_cons_self x t

theorem getLast?_mem_self {α : Type} {l : List α} {a : α} (h : l.getLast? = some a) : a ∈ l := by
  rw [← List.head?_reverse] at h
  simpa using head?_mem_self h

theorem getLast?_cons_of_ne_nil {α : Type} (c : α) {l : List α} (h : l ≠ []) :
    (c :: l).getLast? = l.getLast? := by
  cases l with
  | nil => exact absurd rfl h
  | cons y r => exact List.getLast?_cons_cons

theorem exists_head?_of_ne_nil {α : Type} {l : List α} (h : l ≠ []) :
    ∃ a, l.head? = some a := by
  cases l with
  | nil => exact absurd rfl h
  | cons x t => exact ⟨x, rfl⟩

theorem exists_getLast?_of_ne_nil {α : Type} {l : List α} (h : l ≠ []) :
    ∃ a, l.getLast? = some a := by
  have : l.reverse ≠ [] := by simpa using h
  obtain ⟨a, ha⟩ := exists_head?_of_ne_nil this
  exact ⟨a, by rwa [List.head?_reverse] at ha⟩

theorem natDigits_ends (n : Nat) :
    ∃ a b, (natDigits n).head? = some a ∧ (natDigits n).getLast? = some b ∧
      wsChar a = false ∧ wsChar b = false := by
  have hne : natDigits n ≠ [] := natDigitsF_ne_nil (n + 1) n (Nat.succ_pos n)
  obtain ⟨a, ha⟩ := exists_head?_of_ne_nil hne
  obtain ⟨b, hb⟩ := exists_getLast?_of_ne_nil hne
  obtain ⟨ka, hka, rfl⟩ := natDigitsF_all_digits (n + 1) n a (head?_mem_self ha)
  obtain ⟨kb, hkb, rfl⟩ := natDigitsF_all_digits (n + 1) n b (getLast?_mem_self hb)
  exact ⟨_, _, ha, hb, digitChar_not_ws ka hka, digitChar_not_ws kb hkb⟩

theorem serializeInt_ends (n : Int) :
    ∃ a b, (serializeInt n).head? = some a ∧ (serializeInt n).getLast? = some b ∧
      wsChar a = false ∧ wsChar b = false := by
  unfold serializeInt
  by_cases hn : n < 0
  · rw [if_pos hn]
    obtain ⟨a, b, _, hb, _, hwb⟩ := natDigits_ends n.natAbs
    have hne : natDigits n.natAbs ≠ [] := natDigitsF_ne_nil _ _ (Nat.succ_pos _)
    refine ⟨'-', b, List.head?_cons, ?_, by decide, hwb⟩
    rw [getLast?_cons_of_ne_nil '-' hne]
    exact hb
  · rw [if_neg hn]
    exact natDigits_ends n.toNat

theorem serializeJson_ends (v : Json) :
    ∃ a b, (serializeJson v).head? = some a ∧ (serializeJson v).getLast? = some b ∧
      wsChar a = false ∧ wsChar b = false := by
  cases v with
  | null => exact ⟨'n', 'l', rfl, rfl, by decide, by decide⟩
  | bool b =>
    cases b
    · exact ⟨'f', 'e', rfl, rfl, by decide, by decide⟩
    · exact ⟨'t', 'e', rfl, rfl, by decide, by decide⟩
  | num n =>
    have h := serializeInt_ends n
    simpa [serializeJson] using h
  | str s =>
    refine ⟨'"', '"', ?_, ?_, by decide, by decide⟩
    · simp [serializeJson]
    · have : serializeJson (Json.str s) = ('"' :: escape s) ++ ['"'] := by
        simp [serializeJson]
      rw [this, List.getLast?_concat]
  | arr xs =>
    refine ⟨'[', ']', ?_, ?_, by decide, by decide⟩
    · simp [serializeJson]
    · have : serializeJson (Json.arr xs) = ('[' :: serializeArr xs) ++ [']'] := by
        simp [serializeJson]
      rw [this, List.getLast?_concat]
  | obj fs =>
    refine ⟨lbrace, rbrace, ?_, ?_, by decide, by decide⟩
    · simp [serializeJson]
    · have : serializeJson (Json.obj fs) = (lbrace :: serializeObj fs) ++ [rbrace] := by
        simp [serializeJson]
      rw [this, List.getLast?_concat]

/-! ### The fence round-trip (claim C3) -/

def fencedClosed (s : String) : String := "```json\n" ++ s ++ "\n```"

def fencedOpen (s : String) : String := "```json\n" ++ s

theorem cleanJson_core_closed (X : List Char) (h3 : ¬ tick3 <:+: X) (ht : trimList X = X) :
    trimList (removeAll tick3 (removeAll tickJson
      (tickJson ++ ('\n' :: (X ++ '\n' :: tick3))))) = X := by
  have hJ : ¬ tickJson <:+: X := fun h => h3 (List.IsInfix.trans (by decide) h)
  have hy : ¬ tickJson <:+: (X ++ '\n' :: tick3) :=
    @noOcc_append_cons tickJson '\n' X tick3 (by decide) hJ (by decide)
  have hnJ : ¬ tickJson <:+: ('\n' :: (X ++ '\n' :: tick3)) := by
    have h0 := @noOcc_append_cons tickJson '\n' [] (X ++ '\n' :: tick3) (by decide) (by decide) hy
    simpa using h0
  rw [removeAll_self_append tickJson _ (by decide),
      removeAll_of_no_occurrence tickJson _ hnJ]
  have hshape : ('\n' :: (X ++ '\n' :: tick3)) = ('\n' :: (X ++ ['\n'])) ++ tick3 := by simp
  have hno : ¬ tick3 <:+: (('\n' :: (X ++ ['\n'])) ++ tick3.dropLast) := by
    have hdl : tick3.dropLast = ['`', '`'] := by decide
    rw [hdl]
    have hy2 : ¬ tick3 <:+: (X ++ '\n' :: ['`', '`']) :=
      @noOcc_append_cons tick3 '\n' X ['`', '`'] (by decide) h3 (by decide)
    have h0 := @noOcc_append_cons tick3 '\n' [] (X ++ '\n' :: ['`', '`']) (by decide) (by decide) hy2
    simpa using h0
  rw [hshape, removeAll_append_pat tick3 (by decide) ('\n' :: (X ++ ['\n'])) hno,
      trimList_cons_ws (by decide), trimList_concat_ws (by decide), ht]

theorem cleanJson_core_open (X : List Char) (h3 : ¬ tick3 <:+: X) (ht : trimList X = X) :
    trimList (removeAll tick3 (removeAll tickJson (tickJson ++ ('\n' :: X)))) = X := by
  have hJ : ¬ tickJson <:+: X := fun h => h3 (List.IsInfix.trans (by decide) h)
  have hnJ : ¬ tickJson <:+: ('\n' :: X) := by
    have h0 := @noOcc_append_cons tickJson '\n' [] X (by decide) (by decide) hJ
    simpa using h0
  have hn3 : ¬ tick3 <:+: ('\n' :: X) := by
    have h0 := @noOcc_append_cons tick3 '\n' [] X (by decide) (by decide) h3
    simpa using h0
  rw [removeAll_self_append tickJson _ (by decide),
      removeAll_of_no_occurrence tickJson _ hnJ,
      removeAll_of_no_occurrence tick3 _ hn3,
      trimList_cons_ws (by decide), ht]

theorem serialize_data (v : Json) : (serialize v).data = serializeJson v := rfl

/-- C3 (amended): for every JSON value whose serialization does not contain
three consecutive backticks, `cleanJson` applied to the serialization
wrapped in a ```json fence — with or without the trailing fence — returns
exactly the serialization.  Since `JSON.parse` is a function of its input
string, parsing the stripped text then recovers a value deep-equal to the
original one whenever parsing the serialization does. -/
theorem cleanJson_fence_recovers (v : Json) (h3 : ¬ tick3 <:+: serializeJson v) :
    cleanJson (fencedClosed (serialize v)) = serialize v
    ∧ cleanJson (fencedOpen (serialize v)) = serialize v := by
  obtain ⟨a, b, hha, hhb, hwa, hwb⟩ := serializeJson_ends v
  have ht := trimList_eq_self (serializeJson v) a b hha hhb hwa hwb
  constructor
  · have hdata : (fencedClosed (serialize v)).data =
        tickJson ++ ('\n' :: (serializeJson v ++ '\n' :: tick3)) := by
      show ("```json\n" ++ serialize v ++ "\n```").data = _
      rw [String.data_append, String.data_append, serialize_data]
      have h1 : "```json\n".data = tickJson ++ ['\n'] := by decide
      have h2 : "\n```".data = '\n' :: tick3 := by decide
      rw [h1, h2]
      simp
    show (⟨trimList (removeAll tick3 (removeAll tickJson
        (fencedClosed (serialize v)).data))⟩ : String) = serialize v
    rw [hdata, cleanJson_core_closed (serializeJson v) h3 ht]
    rfl
  · have hdata : (fencedOpen (serialize v)).data =
        tickJson ++ ('\n' :: serializeJson v) := by
      show ("```json\n" ++ serialize v).data = _
      rw [String.data_append, serialize_data]
      have h1 : "```json\n".data = tickJson ++ ['\n'] := by decide
      rw [h1]
      simp
    show (⟨trimList (removeAll tick3 (removeAll tickJson
        (fencedOpen (serialize v)).data))⟩ : String) = serialize v
    rw [hdata, cleanJson_core_open (serializeJson v) h3 ht]
    rfl

/-- Witness for the amended C3 at the JSON value `null`. -/
theorem cleanJson_fence_recovers_witness :
    cleanJson (fencedClosed (serialize Json.null)) = serialize Json.null
    ∧ cleanJson (fencedOpen (serialize Json.null)) = serialize Json.null :=
  cleanJson_fence_recovers Json.null (by simp only [serializeJson]; decide)

/-- C3 counterexample: the claim as stated — for EVERY valid JSON value —
fails.  The JSON string value made of three backticks serializes to
`"```"`; `cleanJson` of its fenced wrapping yields `""`, the serialization
of the empty-string JSON value, so `JSON.parse` recovers the empty string
rather than a value deep-equal to the original. -/
theorem cleanJson_fence_counterexample :
    cleanJson (fencedClosed (serialize (Json.str "```".data))) = serialize (Json.str [])
    ∧ serialize (Json.str []) ≠ serialize (Json.str "```".data)
    ∧ Json.str [] ≠ Json.str "```".data := by
  have h1 : serialize (Json.str "```".data) = "\"```\"" := by
    show (⟨serializeJson (Json.str "```".data)⟩ : String) = _
    simp only [serializeJson]
    decide
  have h2 : serialize (Json.str []) = "\"\"" := by
    show (⟨serializeJson (Json.str [])⟩ : String) = _
    simp only [serializeJson]
    decide
  refine ⟨?_, ?_, ?_⟩
  · rw [h1, h2]
    decide
  · rw [h1, h2]
    decide
  · intro h
    have := Json.str.inj h
    simp at this

/-! ### Resume-driven query generators (gemini.ts lines 402-418, 558-571)

Each is modelled as a function of the raw text returned by the model.
`generateDorkFromResume` is `query.replace(/`/g, '').trim()` — note there
is NO local fallback.  `getSearchQueryFromResume` is
`txt.replace(/"/g, '').trim() || "Software Engineer"`. -/

def generateDorkFromResume (modelText : String) : String :=
  ⟨trimList (modelText.data.filter (fun c => c ≠ '`'))⟩

def getSearchQueryFromResume (modelText : String) : String :=
  let r : String := ⟨trimList (modelText.data.filter (fun c => c ≠ '"'))⟩
  if r = "" then "Software Engineer" else r

theorem mem_of_mem_trimList {c : Char} {l : List Char} (h : c ∈ trimList l) : c ∈ l := by
  unfold trimList at h
  rw [List.mem_reverse] at h
  have h2 : c ∈ (l.dropWhile wsChar).reverse := List.Sublist.mem h (List.dropWhile_sublist _)
  rw [List.mem_reverse] at h2
  exact List.Sublist.mem h2 (List.dropWhile_sublist _)

/-- C8 (amended): both query generators strip their quoting/backtick
artifacts, but only `getSearchQueryFromResume` has the deterministic local
fallback "Software Engineer" on text that strips to empty;
`generateDorkFromResume` returns the stripped text itself, which is empty
for empty model output. -/
theorem queryGenerators_strip_and_fallback :
    (∀ txt : String, '`' ∉ (generateDorkFromResume txt).data)
    ∧ (∀ txt : String, '"' ∉ (getSearchQueryFromResume txt).data)
    ∧ (∀ txt : String, getSearchQueryFromResume txt ≠ "")
    ∧ (∀ txt : String,
        (⟨trimList (txt.data.filter (fun c => c ≠ '"'))⟩ : String) = "" →
        getSearchQueryFromResume txt = "Software Engineer")
    ∧ generateDorkFromResume "" = "" := by
  refine ⟨?_, ?_, ?_, ?_, rfl⟩
  · intro txt h
    have hm := mem_of_mem_trimList h
    simp [List.mem_filter] at hm
  · intro txt h
    by_cases hr : (⟨trimList (txt.data.filter (fun c => c ≠ '"'))⟩ : String) = ""
    · rw [show getSearchQueryFromResume txt = "Software Engineer" from by
        simp only [getSearchQueryFromResume]; rw [if_pos hr]] at h
      simp at h
    · rw [show getSearchQueryFromResume txt =
          (⟨trimList (txt.data.filter (fun c => c ≠ '"'))⟩ : String) from by
        simp only [getSearchQueryFromResume]; rw [if_neg hr]] at h
      have hm := mem_of_mem_trimList h
      simp [List.mem_filter] at hm
  · intro txt
    simp only [getSearchQueryFromResume]
    by_cases hr : (⟨trimList (txt.data.filter (fun c => c ≠ '"'))⟩ : String) = ""
    · rw [if_pos hr]; decide
    · rw [if_neg hr]; exact hr
  · intro txt h
    simp only [getSearchQueryFromResume]
    rw [if_pos h]

/-- Witness for the amended C8 at model text `"\"\""` (which strips to the
empty string) for the fallback clause. -/
theorem queryGenerators_strip_and_fallback_witness :
    (⟨trimList (("\"\"" : String).data.filter (fun c => c ≠ '"'))⟩ : String) = ""
    ∧ getSearchQueryFromResume "\"\"" = "Software Engineer" :=
  ⟨by decide, queryGenerators_strip_and_fallback.2.2.2.1 "\"\"" (by decide)⟩

/-- C8 counterexample: the claim as stated fails for `generateDorkFromResume`
— on empty model text it returns the empty string, not the fallback
"Software Engineer". -/
theorem generateDork_no_fallback_counterexample :
    generateDorkFromResume "" = "" ∧ generateDorkFromResume "" ≠ "Software Engineer" :=
  ⟨rfl, by decide⟩

/-! ### Model catalog fetcher (`fetchProviderModels`, gemini.ts lines 53-150)

The `fetch` + `response.json()` + field extraction inside the `try` block
is abstracted as `net : Except String (List RawModel)`: an `Except.error`
covers every way the try block can throw (network failure from a malformed
or unreachable URL, non-ok response, JSON parse failure, malformed entry).
The surrounding `try/catch` is the `match` on `net`. -/

structure ModelInfo where
  id : String
  name : String
  supportsVision : Bool
  contextLength : Option Nat
  isFree : Option Bool
deriving DecidableEq, Repr

inductive PriceVal where
  | str (s : String)
  | num (n : Int)
deriving DecidableEq, Repr

structure RawModel where
  id : String
  context_window : Option Nat
  context_length : Option Nat
  pricingPrompt : Option PriceVal
deriving DecidableEq, Repr

/-- JS `a || b` on optional numeric fields (the number `0` is falsy). -/
def jsNumOr : Option Nat → Option Nat → Option Nat
  | some 0, b => b
  | some n, _ => some n
  | none, b => b

/-- JS `baseUrl.replace(/\/$/, '')`: drop one trailing slash. -/
def stripTrailingSlash (s : String) : String :=
  if s.data.getLast? = some '/' then ⟨s.data.dropLast⟩ else s

def mapModel (provider : LLMProvider) (m : RawModel) : ModelInfo :=
  { id := m.id
    name := m.id
    supportsVision :=
      strContains "vision" m.id.toLower || strContains "gpt-4o" m.id.toLower ||
      strContains "claude-3" m.id.toLower || strContains "llava" m.id.toLower ||
      (provider == LLMProvider.groq && strContains "llama-3.2" m.id && strContains "11b" m.id)
    contextLength := jsNumOr m.context_window m.context_length
    isFree := some (provider == LLMProvider.custom || provider == LLMProvider.groq ||
      (provider == LLMProvider.openrouter &&
        (strContains ":free" m.id || m.pricingPrompt == some (PriceVal.str "0") ||
         m.pricingPrompt == some (PriceVal.num 0)))) }

def isFreeB (m : ModelInfo) : Bool := m.isFree == some true

/-- The sort comparator: free models first, then by id. -/
def modelLE (a b : ModelInfo) : Bool :=
  if isFreeB a && !isFreeB b then true
  else if !isFreeB a && isFreeB b then false
  else a.id ≤ b.id

def insertSorted (le : ModelInfo → ModelInfo → Bool) (x : ModelInfo) :
    List ModelInfo → List ModelInfo
  | [] => [x]
  | y :: ys => if le x y then x :: y :: ys else y :: insertSorted le x ys

def sortModels (l : List ModelInfo) : List ModelInfo := l.foldr (insertSorted modelLE) []

def googleCatalog : List ModelInfo :=
  [⟨"gemini-2.0-flash-exp", "Gemini 2.0 Flash (Experimental)", true, none, some true⟩,
   ⟨"gemini-1.5-pro", "Gemini 1.5 Pro", true, none, some true⟩,
   ⟨"gemini-1.5-flash", "Gemini 1.5 Flash", true, none, some true⟩,
   ⟨"gemini-1.5-flash-8b", "Gemini 1.5 Flash 8B", true, none, some true⟩]

def anthropicCatalog : List ModelInfo :=
  [⟨"claude-3-5-sonnet-20241022", "Claude 3.5 Sonnet", true, none, none⟩,
   ⟨"claude-3-5-haiku-20241022", "Claude 3.5 Haiku", false, none, none⟩,
   ⟨"claude-3-opus-20240229", "Claude 3 Opus", true, none, none⟩,
   ⟨"claude-3-sonnet-20240229", "Claude 3 Sonnet", true, none, none⟩,
   ⟨"claude-3-haiku-20240307", "Claude 3 Haiku", true, none, none⟩]

def fallbackModels : LLMProvider → List ModelInfo
  | LLMProvider.deepseek =>
    [⟨"deepseek-chat", "DeepSeek V3 (Chat)", false, none, none⟩,
     ⟨"deepseek-reasoner", "DeepSeek R1 (Reasoner)", false, none, none⟩]
  | LLMProvider.groq =>
    [⟨"llama-3.3-70b-versatile", "Llama 3.3 70B", false, none, some true⟩,
     ⟨"llama-3.2-11b-vision-preview", "Llama 3.2 11B (Vision)", true, none, some true⟩,
     ⟨"mixtral-8x7b-32768", "Mixtral 8x7B", false, none, some true⟩]
  | LLMProvider.openai =>
    [⟨"gpt-4o", "GPT-4o", true, none, none⟩,
     ⟨"gpt-4o-mini", "GPT-4o Mini", true, none, none⟩,
     ⟨"o1-preview", "o1 Preview", false, none, none⟩]
  | _ => []

def netFetchUrl : LLMProvider → Option String → String
  | LLMProvider.openai, _ => "https://api.openai.com/v1/models"
  | LLMProvider.deepseek, _ => "https://api.deepseek.com/models"
  | LLMProvider.groq, _ => "https://api.groq.com/openai/v1/models"
  | LLMProvider.openrouter, _ => "https://openrouter.ai/api/v1/models"
  | LLMProvider.custom, some b => if b = "" then "" else stripTrailingSlash b ++ "/models"
  | _, _ => ""

def fetchProviderModels (provider : LLMProvider) (_apiKey : String) (baseUrl : Option String)
    (net : Except String (List RawModel)) : Except String (List ModelInfo) :=
  match provider with
  | LLMProvider.google => Except.ok googleCatalog
  | LLMProvider.anthropic => Except.ok anthropicCatalog
  | p =>
    if netFetchUrl p baseUrl = "" then Except.ok []
    else
      match net with
      | Except.ok models =>
        Except.ok (sortModels
          ((if p = LLMProvider.openai then models.filter (fun m => strContains "gpt" m.id)
            else models).map (mapModel p)))
      | Except.error _ => Except.ok (fallbackModels p)

theorem append_models_ne_empty (s : String) : s ++ "/models" ≠ "" := by
  intro h
  have hd := congrArg String.data h
  rw [String.data_append] at hd
  simp at hd

/-- C4: `fetchProviderModels` never raises — for every provider, apiKey,
baseUrl (including absent ones; a malformed URL surfaces as an error on the
`net` channel) and every network outcome it resolves to `Except.ok` with a
list; and on a network/parse failure it resolves to the hardcoded fallback
catalog for deepseek, groq and openai, and to the empty list for the other
network-fetched providers (openrouter, custom). -/
theorem fetchProviderModels_never_raises :
    (∀ (p : LLMProvider) (key : String) (burl : Option String)
        (net : Except String (List RawModel)),
      ∃ l, fetchProviderModels p key burl net = Except.ok l)
    ∧ (∀ (key : String) (burl : Option String) (e : String),
      fetchProviderModels LLMProvider.deepseek key burl (Except.error e) =
        Except.ok [⟨"deepseek-chat", "DeepSeek V3 (Chat)", false, none, none⟩,
                   ⟨"deepseek-reasoner", "DeepSeek R1 (Reasoner)", false, none, none⟩])
    ∧ (∀ (key : String) (burl : Option String) (e : String),
      fetchProviderModels LLMProvider.groq key burl (Except.error e) =
        Except.ok [⟨"llama-3.3-70b-versatile", "Llama 3.3 70B", false, none, some true⟩,
                   ⟨"llama-3.2-11b-vision-preview", "Llama 3.2 11B (Vision)", true, none, some true⟩,
                   ⟨"mixtral-8x7b-32768", "Mixtral 8x7B", false, none, some true⟩])
    ∧ (∀ (key : String) (burl : Option String) (e : String),
      fetchProviderModels LLMProvider.openai key burl (Except.error e) =
        Except.ok [⟨"gpt-4o", "GPT-4o", true, none, none⟩,
                   ⟨"gpt-4o-mini", "GPT-4o Mini", true, none, none⟩,
                   ⟨"o1-preview", "o1 Preview", false, none, none⟩])
    ∧ (∀ (key : String) (burl : Option String) (e : String),
      fetchProviderModels LLMProvider.openrouter key burl (Except.error e) = Except.ok [])
    ∧ (∀ (key : String) (burl : Option String) (e : String),
      fetchProviderModels LLMProvider.custom key burl (Except.error e) = Except.ok []) := by
  have hcustom : ∀ (key : String) (burl : Option String) (e : String),
      fetchProviderModels LLMProvider.custom key burl (Except.error e) = Except.ok [] := by
    intro key burl e
    cases burl with
    | none => rfl
    | some b =>
      by_cases hb : b = ""
      · simp [fetchProviderModels, netFetchUrl, hb]
      · have hne : netFetchUrl LLMProvider.custom (some b) ≠ "" := by
          simp only [netFetchUrl, if_neg hb]
          exact append_models_ne_empty _
        simp [fetchProviderModels, hne, fallbackModels]
  refine ⟨?_, ?_, ?_, ?_, ?_, hcustom⟩
  · intro p key burl net
    cases p with
    | google => exact ⟨googleCatalog, rfl⟩
    | anthropic => exact ⟨anthropicCatalog, rfl⟩
    | openai => cases net <;> exact ⟨_, rfl⟩
    | deepseek => cases net <;> exact ⟨_, rfl⟩
    | groq => cases net <;> exact ⟨_, rfl⟩
    | openrouter => cases net <;> exact ⟨_, rfl⟩
    | custom =>
      cases net with
      | error e => exact ⟨[], hcustom key burl e⟩
      | ok models =>
        cases burl with
        | none => exact ⟨[], rfl⟩
        | some b =>
          by_cases hb : b = ""
          · refine ⟨[], ?_⟩
            simp [fetchProviderModels, netFetchUrl, hb]
          · have hne : netFetchUrl LLMProvider.custom (some b) ≠ "" := by
              simp only [netFetchUrl, if_neg hb]
              exact append_models_ne_empty _
            refine ⟨sortModels (models.map (mapModel LLMProvider.custom)), ?_⟩
            simp [fetchProviderModels, hne]
  · intro key burl e; rfl
  · intro key burl e; rfl
  · intro key burl e; rfl
  · intro key burl e; rfl

/-- C10: for provider `custom` with no baseUrl the fetch URL stays empty and
the function returns the empty list immediately — the result does not
depend on the network outcome at all (no request is issued). -/
theorem fetchProviderModels_custom_no_baseUrl :
    ∀ (key : String) (net : Except String (List RawModel)),
      fetchProviderModels LLMProvider.custom key none net = Except.ok [] := by
  intro key net
  rfl

/-! ### analyzeJobMatch (gemini.ts lines 604-652)

The prompt construction and the provider dispatch only determine the raw
text the model sends back, which is abstracted as `response`; the
`JSON.parse(cleanJson(txt)) as JobAnalysis` cast is `parseAnalysis`
(an unvalidated parse, so the parsed record may carry any `jobId`). -/

def analyzeJobMatch (job : Job) (resumes : List Resume)
    (response : Except String String)
    (parseAnalysis : String → Option JobAnalysis) : Except String JobAnalysis :=
  match response with
  | Except.error e => Except.error e
  | Except.ok txt =>
    match parseAnalysis (cleanJson txt) with
    | some result => Except.ok { result with jobId := job.id }
    | none =>
      Except.ok
        { jobId := job.id
          bestResumeId := ((resumes.head?).map Resume.id).getD ""
          matchScore := 0
          reasoning := "Analysis failed due to LLM output format error."
          missingKeywords := [] }

/-- C5: when the model response text (after fence stripping) is not valid
JSON, `analyzeJobMatch` does not throw: it returns the degraded analysis
with matchScore 0, bestResumeId the first supplied resume id (or "" for an
empty resume list), a non-empty reasoning string, and no missing keywords. -/
theorem analyzeJobMatch_degraded :
    ∀ (job : Job) (resumes : List Resume) (txt : String)
      (parseAnalysis : String → Option JobAnalysis),
      parseAnalysis (cleanJson txt) = none →
      analyzeJobMatch job resumes (Except.ok txt) parseAnalysis =
        Except.ok
          { jobId := job.id
            bestResumeId := ((resumes.head?).map Resume.id).getD ""
            matchScore := 0
            reasoning := "Analysis failed due to LLM output format error."
            missingKeywords := [] }
      ∧ ("Analysis failed due to LLM output format error." : String) ≠ "" := by
  intro job resumes txt pf hp
  refine ⟨?_, by decide⟩
  simp [analyzeJobMatch, hp]

def sampleJob : Job :=
  ⟨"job-1", "Backend Engineer", "Acme", "Remote", "Build APIs", none, none, none⟩

def sampleResume : Resume := ⟨"res-1", "Main Resume", "Ten years of backend work"⟩

/-- Witness for C5 at a concrete job, resume list and non-JSON response. -/
theorem analyzeJobMatch_degraded_witness :
    (fun _ : String => (none : Option JobAnalysis)) (cleanJson "not json") = none
    ∧ analyzeJobMatch sampleJob [sampleResume] (Except.ok "not json") (fun _ => none) =
        Except.ok ⟨"job-1", "res-1", 0, "Analysis failed due to LLM output format error.", []⟩ := by
  refine ⟨rfl, ?_⟩
  have h := (analyzeJobMatch_degraded sampleJob [sampleResume] "not json" (fun _ => none) rfl).1
  rw [h]
  rfl

/-- C9: whatever the raw model response is — valid JSON (possibly carrying
its own `jobId` field) or not — the returned analysis carries the input
job's id, on both the success and the degraded path. -/
theorem analyzeJobMatch_jobId :
    ∀ (job : Job) (resumes : List Resume) (txt : String)
      (parseAnalysis : String → Option JobAnalysis),
      ∃ a : JobAnalysis,
        analyzeJobMatch job resumes (Except.ok txt) parseAnalysis = Except.ok a
        ∧ a.jobId = job.id := by
  intro job resumes txt pf
  cases hp : pf (cleanJson txt) with
  | some r =>
    refine ⟨{ r with jobId := job.id }, ?_, rfl⟩
    simp [analyzeJobMatch, hp]
  | none =>
    refine ⟨{ jobId := job.id,
              bestResumeId := ((resumes.head?).map Resume.id).getD "",
              matchScore := 0,
              reasoning := "Analysis failed due to LLM output format error.",
              missingKeywords := [] }, ?_, rfl⟩
    simp [analyzeJobMatch, hp]

/-! ### searchJobs (gemini.ts lines 513-556)

The capability gate runs before the prompt is built and before the Google
call; the network call outcome is `net`, the `JSON.parse(cleanJson(...)) as
Job[]` cast is `parseJobsFn` (all fields optional, unvalidated), and
`Math.random()`-based id generation is the fresh-id supply `freshIds`. -/

structure SearchFilters where
  locations : List String
  jobTypes : List String
  workModes : List String
  datePosted : String
deriving DecidableEq, Repr

structure RawJob where
  id : Option String
  title : Option String
  company : Option String
  location : Option String
  summary : Option String
  url : Option String
  postedAt : Option String
  source : Option String
deriving DecidableEq, Repr

/-- JS `o || d` on an optional string (empty string and `undefined` are
falsy). -/
def jsStrOr (o : Option String) (d : String) : String :=
  match o with
  | some s => if s = "" then d else s
  | none => d

def backfillJob (freshId : String) (j : RawJob) : RawJob :=
  { j with
    id := some (jsStrOr j.id freshId)
    location := some (jsStrOr j.location "Unknown")
    summary := some (jsStrOr j.summary "No description available.")
    source := some (jsStrOr j.source "Web") }

def searchRequiresGoogleMsg : String :=
  "Job Search requires Google Grounding (Gemini). Please configure the 'Job Search' task to use a Google model in Settings."

def searchJobs (stored : LLMSettings) (_query : String) (_filters : Option SearchFilters)
    (net : Except String String) (parseJobsFn : String → Option (List RawJob))
    (freshIds : Nat → String) : Except String (List RawJob) :=
  if (getTaskSettings stored (some TaskType.search)).supportsSearch = false
      ∨ (getTaskSettings stored (some TaskType.search)).provider ≠ LLMProvider.google then
    Except.error searchRequiresGoogleMsg
  else
    match net with
    | Except.error e => Except.error e
    | Except.ok txt =>
      match parseJobsFn (cleanJson (if txt = "" then "[]" else txt)) with
      | none => Except.ok []
      | some jobs => Except.ok (jobs.enum.map (fun p => backfillJob (freshIds p.1) p.2))

/-- C6: under an effective search configuration whose provider is not
google, or whose supportsSearch flag is false, `searchJobs` rejects with
the capability error; the result does not depend on the network outcome,
so no network call is needed to produce it. -/
theorem searchJobs_capability_gate :
    ∀ (stored : LLMSettings) (query : String) (filters : Option SearchFilters)
      (net : Except String String) (parseJobsFn : String → Option (List RawJob))
      (freshIds : Nat → String),
      ((getTaskSettings stored (some TaskType.search)).provider ≠ LLMProvider.google
        ∨ (getTaskSettings stored (some TaskType.search)).supportsSearch = false) →
      searchJobs stored query filters net parseJobsFn freshIds =
        Except.error searchRequiresGoogleMsg := by
  intro stored query filters net pj fresh h
  unfold searchJobs
  rw [if_pos h.symm]

def sampleSettingsOpenai : LLMSettings :=
  { toLLMConfig := sampleConfigB, overrides := fun _ => none }

/-- Witness for C6 at concrete stored settings whose effective search
provider is openai. -/
theorem searchJobs_capability_gate_witness :
    ((getTaskSettings sampleSettingsOpenai (some TaskType.search)).provider ≠ LLMProvider.google
      ∨ (getTaskSettings sampleSettingsOpenai (some TaskType.search)).supportsSearch = false)
    ∧ searchJobs sampleSettingsOpenai "backend engineer" none (Except.ok "[]")
        (fun _ => some []) (fun _ => "fresh") = Except.error searchRequiresGoogleMsg :=
  ⟨Or.inl (by decide),
   searchJobs_capability_gate sampleSettingsOpenai "backend engineer" none (Except.ok "[]")
     (fun _ => some []) (fun _ => "fresh") (Or.inl (by decide))⟩

/-! ### parseResumeFromFile (gemini.ts lines 294-387)

`fileToBase64` is local (FileReader), so the first network interaction is
the model call; on the non-google path the vision-capability check and the
PDF check both happen before that call.  `googleNet`/`visionNet` are the
respective call outcomes; `parseResult` abstracts `JSON.parse`. -/

structure FileModel where
  mimeType : String
  base64 : String
deriving DecidableEq, Repr

structure ParsedResumeResult where
  name : String
  content : String
  confidenceScore : Int
deriving DecidableEq, Repr

def visionUnsupportedMsg : String :=
  "The selected parsing model does not support Vision. Please switch to a Vision-capable model in settings."

def pdfUnsupportedMsg : String :=
  "PDF parsing is primarily supported by Google Gemini. For other models, please convert to Image."

def parseResumeFromFile (stored : LLMSettings) (file : FileModel)
    (googleNet : Except String String) (visionNet : Except String String)
    (parseResult : String → Option ParsedResumeResult) : Except String ParsedResumeResult :=
  if (getTaskSettings stored (some TaskType.parsing)).provider = LLMProvider.google then
    match googleNet with
    | Except.error e => Except.error e
    | Except.ok txt =>
      match parseResult (if txt = "" then "\x7b\x7d" else txt) with
      | some r => Except.ok r
      | none => Except.error "SyntaxError: Unexpected token"
  else if (getTaskSettings stored (some TaskType.parsing)).supportsVision = false then
    Except.error visionUnsupportedMsg
  else if file.mimeType = "application/pdf" then
    Except.error pdfUnsupportedMsg
  else
    match visionNet with
    | Except.error e => Except.error e
    | Except.ok txt =>
      match parseResult (cleanJson (if txt = "" then "\x7b\x7d" else txt)) with
      | some r => Except.ok r
      | none => Except.error "SyntaxError: Unexpected token"

/-- C7 (amended): a PDF file under a non-google effective parsing
configuration is rejected with the format-specific "convert to Image"
error before any network call — provided the configuration claims vision
support; a non-google configuration without vision support hits the
vision-capability check first (see the counterexample). -/
theorem parseResume_pdf_rejected :
    ∀ (stored : LLMSettings) (file : FileModel) (gNet vNet : Except String String)
      (parseResult : String → Option ParsedResumeResult),
      (getTaskSettings stored (some TaskType.parsing)).provider ≠ LLMProvider.google →
      (getTaskSettings stored (some TaskType.parsing)).supportsVision = true →
      file.mimeType = "application/pdf" →
      parseResumeFromFile stored file gNet vNet parseResult =
        Except.error pdfUnsupportedMsg := by
  intro stored file gNet vNet pr h1 h2 h3
  unfold parseResumeFromFile
  rw [if_neg h1, if_neg (by simp [h2]), if_pos h3]

def sampleConfigNoVision : LLMConfig :=
  { provider := LLMProvider.openai, apiKey := "", modelName := "o1-preview",
    baseUrl := none, siteUrl := none, siteName := none,
    supportsVision := false, supportsSearch := false }

def sampleSettingsNoVision : LLMSettings :=
  { toLLMConfig := sampleConfigNoVision, overrides := fun _ => none }

def samplePdfFile : FileModel := ⟨"application/pdf", "JVBERi0xLjQK"⟩

/-- Witness for the amended C7: an openai (vision-capable) parsing
configuration rejects a PDF with the format error, for any network
outcome. -/
theorem parseResume_pdf_rejected_witness :
    (getTaskSettings sampleSettingsOpenai (some TaskType.parsing)).provider ≠ LLMProvider.google
    ∧ (getTaskSettings sampleSettingsOpenai (some TaskType.parsing)).supportsVision = true
    ∧ samplePdfFile.mimeType = "application/pdf"
    ∧ parseResumeFromFile sampleSettingsOpenai samplePdfFile (Except.ok "") (Except.ok "")
        (fun _ => none) = Except.error pdfUnsupportedMsg :=
  ⟨by decide, rfl, rfl,
   parseResume_pdf_rejected sampleSettingsOpenai samplePdfFile (Except.ok "") (Except.ok "")
     (fun _ => none) (by decide) rfl rfl⟩

/-- C7 counterexample: the claim as stated quantifies over EVERY non-google
effective configuration, but a non-google configuration with
supportsVision = false fails on the vision-capability check, with a
different error message than the "convert to Image" one, even for a PDF
file. -/
theorem parseResume_pdf_claim_counterexample :
    parseResumeFromFile sampleSettingsNoVision samplePdfFile (Except.ok "") (Except.ok "")
      (fun _ => none) = Except.error visionUnsupportedMsg
    ∧ visionUnsupportedMsg ≠ pdfUnsupportedMsg := by
  refine ⟨rfl, by decide⟩

end JobHunter
